import Mathlib

/-!
Verification of the COG (cloud-optimized raster container) selective-reading
core: the byte-level scalar decoders (`Bytes_Parse.py`), the directory-chain
walker (`COG_Parse.py`), and the tile materialization helpers
(`Tile_Deserializer.py`).

Byte buffers are modelled as `List Nat` (a real Python `bytes` object holds
values `0 ≤ b < 256`; theorems that need this bound take it as a hypothesis).
Python `IndexError` / `ValueError` / `UnicodeDecodeError` conditions are
modelled by `Option`: a function returns `none` exactly when the Python code
would raise.  IEEE doubles are modelled by their 64-bit integer bit pattern
(the `struct.unpack('d', struct.pack('Q', v))` reinterpretation is a bijection
on patterns, so nothing is lost for the properties proved here).
-/

namespace COG

/-- Python negative-index list access: `l[i]` allows `-len l ≤ i < len l`,
with negative `i` counting from the end; anything else raises `IndexError`
(modelled as `none`). -/
def py_get {α : Type} (l : List α) (i : Int) : Option α :=
  if 0 ≤ i then l[i.toNat]?
  else if 0 ≤ (l.length : Int) + i then l[((l.length : Int) + i).toNat]?
  else none

/-- Loop body of `get_int_ii` (`Bytes_Parse.py` lines 4-10):
`value |= pd[start_pos + i] << i * 8`, with the (dead, since the operands are
never negative) Python guard `if value < 0: value += 256 << i * 8` kept. -/
def get_int_ii_go (pd : List Nat) (start_pos : Nat) : Nat → Nat → Nat → Option Nat
  | value, _, 0 => some value
  | value, i, rem + 1 =>
    match pd[start_pos + i]? with
    | none => none
    | some b =>
      let v := value ||| (b <<< (i * 8))
      let v := if v < 0 then v + (256 <<< (i * 8)) else v
      get_int_ii_go pd start_pos v (i + 1) rem

/-- `get_int_ii(pd, start_pos, length)` from `Bytes_Parse.py` lines 4-10:
little-endian unsigned decode of `length` bytes. -/
def get_int_ii (pd : List Nat) (start_pos length : Nat) : Option Nat :=
  get_int_ii_go pd start_pos 0 0 length

/-- Loop body of `get_long` (`Bytes_Parse.py` lines 33-39):
`value |= (b[start + i] & 0xff) << (8 * i)`, dead negative guard kept. -/
def get_long_go (pd : List Nat) (start : Nat) : Nat → Nat → Nat → Option Nat
  | value, _, 0 => some value
  | value, i, rem + 1 =>
    match pd[start + i]? with
    | none => none
    | some b =>
      let v := value ||| ((b &&& 0xff) <<< (8 * i))
      let v := if v < 0 then v + (256 <<< (i * 8)) else v
      get_long_go pd start v (i + 1) rem

/-- `get_long(header_bytes_bytes, start, length)` from `Bytes_Parse.py`
lines 33-39. -/
def get_long (pd : List Nat) (start length : Nat) : Option Nat :=
  get_long_go pd start 0 0 length

/-- Loop body of `get_double` (`Bytes_Parse.py` lines 50-56); identical
accumulation to `get_long`.  The result is the assembled 64-bit pattern; the
final `struct.unpack('d', struct.pack('Q', value))` reinterpretation is
modelled as the identity on bit patterns. -/
def get_double_go (pd : List Nat) (start_pos : Nat) : Nat → Nat → Nat → Option Nat
  | value, _, 0 => some value
  | value, i, rem + 1 =>
    match pd[start_pos + i]? with
    | none => none
    | some b =>
      let v := value ||| ((b &&& 0xff) <<< (8 * i))
      let v := if v < 0 then v + (256 <<< (i * 8)) else v
      get_double_go pd start_pos v (i + 1) rem

/-- `get_double(pd, start_pos, length)` from `Bytes_Parse.py` lines 50-56,
returning the IEEE-754 bit pattern. -/
def get_double (pd : List Nat) (start_pos length : Nat) : Option Nat :=
  get_double_go pd start_pos 0 0 length

/-- `get_string(pd, start_pos, length)` from `Bytes_Parse.py` lines 67-70.
`str_get[:] = pd[start_pos:start_pos+length]` resizes the bytearray to the
(possibly shorter) in-bounds slice, so an out-of-range read silently
truncates; `.decode("ascii")` raises (modelled `none`) iff a byte is ≥ 128. -/
def get_string (pd : List Nat) (start_pos length : Nat) : Option (List Nat) :=
  let str_get := (pd.drop start_pos).take length
  if str_get.all (fun b => b < 128) then some str_get else none

/-- Innermost loop of `get_bytes_array` (`Bytes_Parse.py` lines 26-28):
`for j in range(tile_count_x)` reading `get_long` at
`start_pos + (i * tile_count_x + j) * type_size`; `row_base = i * tile_count_x`. -/
def ga_col_loop (header : List Nat) (start_pos type_size row_base : Nat) :
    Nat → Nat → Option (List Nat)
  | _, 0 => some []
  | j, rem + 1 => do
    let v ← get_long header (start_pos + (row_base + j) * type_size) type_size
    let rest ← ga_col_loop header start_pos type_size row_base (j + 1) rem
    pure (v :: rest)

/-- Middle loop of `get_bytes_array`: `for i in range(tile_count_y)`. -/
def ga_row_loop (header : List Nat) (start_pos type_size tile_count_x : Nat) :
    Nat → Nat → Option (List (List Nat))
  | _, 0 => some []
  | i, rem + 1 => do
    let offsets ← ga_col_loop header start_pos type_size (i * tile_count_x) 0 tile_count_x
    let rest ← ga_row_loop header start_pos type_size tile_count_x (i + 1) rem
    pure (offsets :: rest)

/-- Outer loop of `get_bytes_array`: `for _ in range(band_count)` appending the
rows of every band to one flat list.  Note the loop variable is unused in the
offset computation, exactly as in the source. -/
def ga_band_loop (header : List Nat) (start_pos type_size tile_count_x tile_count_y : Nat) :
    Nat → Option (List (List Nat))
  | 0 => some []
  | rem + 1 => do
    let rows ← ga_row_loop header start_pos type_size tile_count_x 0 tile_count_y
    let rest ← ga_band_loop header start_pos type_size tile_count_x tile_count_y rem
    pure (rows ++ rest)

/-- `get_bytes_array(start_pos, type_size, header, image_width, image_height,
band_count)` from `Bytes_Parse.py` lines 13-30. -/
def get_bytes_array (start_pos type_size : Nat) (header : List Nat)
    (image_width image_height band_count : Nat) : Option (List (List Nat)) :=
  let tile_count_x := if image_width % 256 = 0 then image_width / 256 else image_width / 256 + 1
  let tile_count_y := if image_height % 256 = 0 then image_height / 256 else image_height / 256 + 1
  ga_band_loop header start_pos type_size tile_count_x tile_count_y band_count

/-- Shared loop of `get_double_cell` / `get_double_trans` (`Bytes_Parse.py`
lines 42-47 and 59-64, two textually identical loops):
`for i in range(count): get_double(header, start_pos + i * type_size, type_size)`. -/
def gd_loop (header : List Nat) (start_pos type_size : Nat) :
    Nat → Nat → Option (List Nat)
  | _, 0 => some []
  | i, rem + 1 => do
    let v ← get_double header (start_pos + i * type_size) type_size
    let rest ← gd_loop header start_pos type_size (i + 1) rem
    pure (v :: rest)

/-- `get_double_cell(start_pos, type_size, count, header)` from
`Bytes_Parse.py` lines 42-47. -/
def get_double_cell (start_pos type_size count : Nat) (header : List Nat) :
    Option (List Nat) :=
  gd_loop header start_pos type_size 0 count

/-- `get_double_trans(start_pos, type_size, count, header)` from
`Bytes_Parse.py` lines 59-64. -/
def get_double_trans (start_pos type_size count : Nat) (header : List Nat) :
    Option (List Nat) :=
  gd_loop header start_pos type_size 0 count

/-- `type_array` from `COG_Parse.py` lines 14-28: value-type code → byte
width; index 0 is the `???` placeholder. -/
def type_array : List Nat := [0, 1, 1, 2, 4, 8, 1, 1, 2, 4, 8, 4, 8]

/-- The accumulator variables of `cog_header_bytes_parse`
(`COG_Parse.py` lines 41-55). -/
structure ParseState where
  image_width : List Nat
  image_height : List Nat
  bit_per_sample : List Nat
  band_count : List Nat
  sample_format : List Nat
  tile_offsets : List (List (List Nat))
  tile_byte_counts : List (List (List Nat))
  cell_scale : List Nat
  geo_transform : List Nat
  crs : List Nat
  gdal_metadata : List Nat
  gdal_nodata : List Nat
  overview_level : Int
deriving DecidableEq

/-- Initial accumulator state: empty lists, `overview_level = -1`. -/
def init_state : ParseState :=
  { image_width := [], image_height := [], bit_per_sample := [], band_count := [],
    sample_format := [], tile_offsets := [], tile_byte_counts := [],
    cell_scale := [], geo_transform := [], crs := [],
    gdal_metadata := [], gdal_nodata := [], overview_level := -1 }

/-- The tag-dispatch `if/elif` chain of `cog_header_bytes_parse`
(`COG_Parse.py` lines 71-99).  `type_size` is `type_array[type_index]`.
For tag 34737/42112/42113 the Python length argument is the signed value
`type_size * count - 1`; `bytearray(-1)` raises, modelled by the `< 0` guard. -/
def dispatch_tag (header_bytes : List Nat) (tag_index type_size count p_data : Nat)
    (s : ParseState) : Option ParseState :=
  if tag_index = 256 then do
    let v ← get_int_ii header_bytes p_data type_size
    pure { s with image_width := s.image_width ++ [v],
                  overview_level := s.overview_level + 1 }
  else if tag_index = 257 then do
    let v ← get_int_ii header_bytes p_data type_size
    pure { s with image_height := s.image_height ++ [v] }
  else if tag_index = 258 then do
    let v ← get_int_ii header_bytes p_data type_size
    pure { s with bit_per_sample := s.bit_per_sample ++ [v] }
  else if tag_index = 277 then do
    let v ← get_int_ii header_bytes p_data type_size
    pure { s with band_count := s.band_count ++ [v] }
  else if tag_index = 324 then do
    let w ← py_get s.image_width s.overview_level
    let h ← py_get s.image_height s.overview_level
    let b ← py_get s.band_count s.overview_level
    let g ← get_bytes_array p_data type_size header_bytes w h b
    pure { s with tile_offsets := s.tile_offsets ++ [g] }
  else if tag_index = 325 then do
    let w ← py_get s.image_width s.overview_level
    let h ← py_get s.image_height s.overview_level
    let b ← py_get s.band_count s.overview_level
    let g ← get_bytes_array p_data type_size header_bytes w h b
    pure { s with tile_byte_counts := s.tile_byte_counts ++ [g] }
  else if tag_index = 339 then do
    let v ← get_int_ii header_bytes p_data type_size
    pure { s with sample_format := s.sample_format ++ [v] }
  else if tag_index = 33550 then do
    let v ← get_double_cell p_data type_size count header_bytes
    pure { s with cell_scale := v }
  else if tag_index = 33922 then do
    let v ← get_double_trans p_data type_size count header_bytes
    pure { s with geo_transform := v }
  else if tag_index = 34737 then
    if (type_size * count : Int) - 1 < 0 then none
    else do
      let v ← get_string header_bytes p_data (type_size * count - 1)
      pure { s with crs := v }
  else if tag_index = 42112 then
    if (type_size * count : Int) - 1 < 0 then none
    else do
      let v ← get_string header_bytes p_data (type_size * count - 1)
      pure { s with gdal_metadata := v }
  else if tag_index = 42113 then
    if (type_size * count : Int) - 1 < 0 then none
    else do
      let v ← get_string header_bytes p_data (type_size * count - 1)
      pure { s with gdal_nodata := v }
  else pure s

/-- One 12-byte directory entry at offset `ifh` (`COG_Parse.py` lines 61-99):
2-byte tag, 2-byte type code, 4-byte count; `total_size = type_array[type] *
count`; value inline at `ifh + 8` when `total_size ≤ 4`, else the 4 bytes at
`ifh + 8` are a pointer; then dispatch on the tag. -/
def process_entry (header_bytes : List Nat) (ifh : Nat) (s : ParseState) :
    Option ParseState := do
  let tag_index ← get_int_ii header_bytes ifh 2
  let type_index ← get_int_ii header_bytes (ifh + 2) 2
  let count ← get_int_ii header_bytes (ifh + 4) 4
  let tw ← type_array[type_index]?
  let total_size := tw * count
  let p_data ← if total_size > 4 then get_int_ii header_bytes (ifh + 8) 4 else pure (ifh + 8)
  dispatch_tag header_bytes tag_index tw count p_data s

/-- The `for _ in range(de_count)` loop (`COG_Parse.py` lines 60-101),
advancing `ifh` by 12 per entry; returns the final `ifh` and state. -/
def entries_loop (header_bytes : List Nat) :
    Nat → Nat → ParseState → Option (Nat × ParseState)
  | 0, ifh, s => some (ifh, s)
  | n + 1, ifh, s => do
    let s' ← process_entry header_bytes ifh s
    entries_loop header_bytes n (ifh + 12) s'

/-- The `while ifh != 0` loop (`COG_Parse.py` lines 57-102): read the 2-byte
entry count, process the entries, read the 4-byte next-block offset, repeat.
`fuel` bounds the number of loop iterations (the Python loop can diverge on a
cyclic chain); exhausted fuel is `none`. -/
def parse_ifd (header_bytes : List Nat) : Nat → Nat → ParseState → Option ParseState
  | 0, _, _ => none
  | fuel + 1, ifh, s =>
    if ifh = 0 then some s
    else do
      let de_count ← get_int_ii header_bytes ifh 2
      let r ← entries_loop header_bytes de_count (ifh + 2) s
      let next ← get_int_ii header_bytes r.1 4
      parse_ifd header_bytes fuel next r.2

/-- `cog_header_bytes_parse(header_bytes)` from `COG_Parse.py` lines 39-118:
the initial block offset is `get_int_ii(header_bytes, 4, 4)`. -/
def cog_header_bytes_parse (header_bytes : List Nat) (fuel : Nat) : Option ParseState := do
  let ifh ← get_int_ii header_bytes 4 4
  parse_ifd header_bytes fuel ifh init_state

/-! ### Spec-side directory-chain state machine

Modelled from the spec's words (§4.2): little-endian fields are read as plain
positional sums, an `n`-byte read at `off` fails (TruncatedHeader) iff
`off + n` exceeds the supplied byte range; each directory block at offset `o`
is a 2-byte entry count `n`, then `n` fixed 12-byte records with record `k` at
`o + 2 + 12 * k`, then the 4-byte next-block offset at `o + 2 + 12 * n`;
entry values are inline at `entry_offset + 8` when
`total_size = type_width * count ≤ 4`, otherwise the 4 bytes at
`entry_offset + 8` point at the value; the walk starts at the offset stored in
the 4-byte field at byte 4 and is `Done` exactly on offset 0. -/

/-- Spec-side `n`-byte little-endian read: defined by the positional-notation
sum, failing iff the read would exceed the supplied byte range. -/
def spec_read_le (hb : List Nat) (off width : Nat) : Option Nat :=
  if off + width ≤ hb.length then
    some (((List.range width).map (fun i => hb.getD (off + i) 0 * 256 ^ i)).sum)
  else none

/-- Spec-side decode of the 12-byte entry at `entry_off`, dispatching by tag. -/
def spec_entry_step (hb : List Nat) (entry_off : Nat) (s : ParseState) :
    Option ParseState := do
  let tag ← spec_read_le hb entry_off 2
  let ty ← spec_read_le hb (entry_off + 2) 2
  let cnt ← spec_read_le hb (entry_off + 4) 4
  let w ← type_array[ty]?
  let total_size := w * cnt
  let vpos ← if total_size ≤ 4 then pure (entry_off + 8) else spec_read_le hb (entry_off + 8) 4
  dispatch_tag hb tag w cnt vpos s

/-- Spec-side entry iteration: record `k` of the block at `block_off` lives at
`block_off + 2 + 12 * k`. -/
def spec_entries (hb : List Nat) (block_off : Nat) :
    Nat → Nat → ParseState → Option ParseState
  | _, 0, s => some s
  | k, rem + 1, s => do
    let s' ← spec_entry_step hb (block_off + 2 + 12 * k) s
    spec_entries hb block_off (k + 1) rem s'

/-- Spec-side processing of one block: entry count, entries, next offset at
`block_off + 2 + 12 * n`. -/
def spec_block (hb : List Nat) (block_off : Nat) (s : ParseState) :
    Option (Nat × ParseState) := do
  let n ← spec_read_le hb block_off 2
  let s' ← spec_entries hb block_off 0 n s
  let next ← spec_read_le hb (block_off + 2 + 12 * n) 4
  pure (next, s')

/-- Spec-side chain iteration: `AtOffset o` steps through one block to
`AtOffset next`; `AtOffset 0` is `Done`. -/
def spec_chain_walk_go (hb : List Nat) : Nat → Nat → ParseState → Option ParseState
  | 0, _, _ => none
  | fuel + 1, o, s =>
    if o = 0 then some s
    else do
      let r ← spec_block hb o s
      spec_chain_walk_go hb fuel r.1 r.2

/-- Spec-side walker: initial offset from the fixed 4-byte field at byte 4. -/
def spec_chain_walk (hb : List Nat) (fuel : Nat) : Option ParseState := do
  let o ← spec_read_le hb 4 4
  spec_chain_walk_go hb fuel o init_state

/-! ### Tile materialization (`Tile_Deserializer.py`) -/

/-- The numpy dtypes returnable by `get_data_type`. -/
inductive DType where
  | uint8 | uint16 | uint32 | uint64
  | int8 | int16 | int32 | int64
  | float32 | float64
deriving DecidableEq

/-- `get_data_type(sample_format, bit_per_sample)` from `Tile_Deserializer.py`
lines 40-65; every fall-through path is Python's implicit `return None`. -/
def get_data_type (sample_format bit_per_sample : Nat) : Option DType :=
  if sample_format = 1 then
    if bit_per_sample = 8 then some DType.uint8
    else if bit_per_sample = 16 then some DType.uint16
    else if bit_per_sample = 32 then some DType.uint32
    else if bit_per_sample = 64 then some DType.uint64
    else none
  else if sample_format = 2 then
    if bit_per_sample = 8 then some DType.int8
    else if bit_per_sample = 16 then some DType.int16
    else if bit_per_sample = 32 then some DType.int32
    else if bit_per_sample = 64 then some DType.int64
    else none
  else if sample_format = 3 then
    if bit_per_sample = 32 then some DType.float32
    else if bit_per_sample = 64 then some DType.float64
    else none
  else none

/-- `np.dtype(None)` is numpy's default dtype, `float64`; `np.frombuffer`
applies it when `bytes_to_geotiff` passes the `None` returned by
`get_data_type` straight through. -/
def np_dtype (o : Option DType) : DType := o.getD DType.float64

/-- The dtype actually used by `np.frombuffer(byte_array, dtype=data_type)` in
`bytes_to_geotiff` (`Tile_Deserializer.py` lines 8-11). -/
def bytes_to_geotiff_dtype (sample_format bit_per_sample : Nat) : DType :=
  np_dtype (get_data_type sample_format bit_per_sample)

/-- Little-endian sample value of one `w`-byte chunk (numpy stores the
platform little-endian byte order used throughout this code base). -/
def le_value (l : List Nat) : Nat := (l.enum.map (fun p => p.2 * 256 ^ p.1)).sum

/-- `np.frombuffer(byte_array, dtype)` for a `w`-byte-wide dtype: reinterpret
the buffer as `len / w` consecutive little-endian samples. -/
def np_frombuffer (byte_array : List Nat) (w : Nat) : List Nat :=
  (List.range (byte_array.length / w)).map
    (fun k => le_value ((byte_array.drop (k * w)).take w))

/-- `data_array.reshape(256, 256)`: row `i` is samples `256*i .. 256*i+255`. -/
def reshape_256 (a : List Nat) : List (List Nat) :=
  (List.range 256).map (fun i => (a.drop (256 * i)).take 256)

/-- `data_array[::-1, :]` (`Tile_Deserializer.py` line 13): reverse row order. -/
def flip_rows {α : Type} (a : List α) : List α := a.reverse

/-- Lines 11-13 of `Tile_Deserializer.py`: frombuffer, reshape, row flip. -/
def tile_pixels (byte_array : List Nat) (w : Nat) : List (List Nat) :=
  flip_rows (reshape_256 (np_frombuffer byte_array w))

/-- The world-space rectangle handed to `rasterio.transform.from_bounds`
(west, south, east, north) in `Tile_Deserializer.py` lines 23-28. -/
structure TileBounds where
  west : ℚ
  south : ℚ
  east : ℚ
  north : ℚ

/-- The four bound expressions of `Tile_Deserializer.py` lines 23-28, with
`geo_transform[3] / geo_transform[4]` the tie-point x/y, `cell_scale[0] /
cell_scale[1]` the per-pixel ground size.  IEEE double arithmetic is modelled
by exact rationals. -/
def bytes_to_geotiff_bounds (geo_x geo_y cell_x cell_y : ℚ)
    (overview_level row_key col_key : Nat) : TileBounds :=
  { west := geo_x + cell_x * 2 ^ overview_level * 256 * col_key,
    south := geo_y - cell_y * 2 ^ overview_level * 256 * row_key,
    east := geo_x + cell_x * 2 ^ overview_level * 256 * (col_key + 1),
    north := geo_y - cell_y * 2 ^ overview_level * 256 * (row_key + 1) }

/-! ### Concrete buffers used as counterexamples and witnesses -/

/-- A 33-byte well-formed single-block directory chain: initial offset field
(bytes 4-7) points at 8; one entry (tag 34737 = CRS text, type 2 = ascii,
count 5, out-of-line pointer to 28); next-block offset 0; value bytes
`"ABCD\0"` at 28-32. -/
def buf_c4_full : List Nat :=
  [73, 73, 42, 0,
   8, 0, 0, 0,
   1, 0,
   177, 135, 2, 0, 5, 0, 0, 0, 28, 0, 0, 0,
   0, 0, 0, 0,
   0, 0,
   65, 66, 67, 68, 0]

/-- A 116-byte two-block chain.  Block 1 (offset 8): width 256, height 256,
band count 1, tile-offset grid (inline value 100) for level 0.  Block 2
(offset 62): a tile-offset grid tag (inline value 200) appearing BEFORE the
width 512 / height 512 / band count 1 tags of level 1. -/
def buf_c8 : List Nat :=
  [73, 73, 42, 0,
   8, 0, 0, 0,
   4, 0,
   0, 1, 3, 0, 1, 0, 0, 0, 0, 1, 0, 0,
   1, 1, 3, 0, 1, 0, 0, 0, 0, 1, 0, 0,
   21, 1, 3, 0, 1, 0, 0, 0, 1, 0, 0, 0,
   68, 1, 4, 0, 1, 0, 0, 0, 100, 0, 0, 0,
   62, 0, 0, 0,
   4, 0,
   68, 1, 4, 0, 1, 0, 0, 0, 200, 0, 0, 0,
   0, 1, 3, 0, 1, 0, 0, 0, 0, 2, 0, 0,
   1, 1, 3, 0, 1, 0, 0, 0, 0, 2, 0, 0,
   21, 1, 3, 0, 1, 0, 0, 0, 1, 0, 0, 0,
   0, 0, 0, 0]

/-- Relation between the result of parsing a truncated header and the result
of parsing the full header: every numeric field agrees exactly and every
string field of the truncated run is a prefix of the full run's. -/
def StateApprox (s' s : ParseState) : Prop :=
  s'.image_width = s.image_width ∧ s'.image_height = s.image_height
  ∧ s'.bit_per_sample = s.bit_per_sample ∧ s'.band_count = s.band_count
  ∧ s'.sample_format = s.sample_format ∧ s'.tile_offsets = s.tile_offsets
  ∧ s'.tile_byte_counts = s.tile_byte_counts ∧ s'.cell_scale = s.cell_scale
  ∧ s'.geo_transform = s.geo_transform ∧ s'.overview_level = s.overview_level
  ∧ s'.crs <+: s.crs ∧ s'.gdal_metadata <+: s.gdal_metadata
  ∧ s'.gdal_nodata <+: s.gdal_nodata

/-! ## Theorems -/

/-! ### C5: world-bounds formula of the materialized tile -/

/-- C5: for every index (tie-point `geo_x, geo_y`, cell size `cell_x, cell_y`),
level, tile row and tile column, the materialized tile's world bounds satisfy
`x0 = geo_x + cell_x * 2^level * 256 * col` and
`y0 = geo_y - cell_y * 2^level * 256 * row`, with `x1` and `y1` lying one tile
(256 cells scaled by `2^level`) further along each axis. -/
theorem bounds_formula (geo_x geo_y cell_x cell_y : ℚ)
    (overview_level row_key col_key : Nat) :
    (bytes_to_geotiff_bounds geo_x geo_y cell_x cell_y overview_level row_key col_key).west
        = geo_x + cell_x * 2 ^ overview_level * 256 * col_key
    ∧ (bytes_to_geotiff_bounds geo_x geo_y cell_x cell_y overview_level row_key col_key).south
        = geo_y - cell_y * 2 ^ overview_level * 256 * row_key
    ∧ (bytes_to_geotiff_bounds geo_x geo_y cell_x cell_y overview_level row_key col_key).east
        = (bytes_to_geotiff_bounds geo_x geo_y cell_x cell_y overview_level row_key col_key).west
            + cell_x * 2 ^ overview_level * 256
    ∧ (bytes_to_geotiff_bounds geo_x geo_y cell_x cell_y overview_level row_key col_key).north
        = (bytes_to_geotiff_bounds geo_x geo_y cell_x cell_y overview_level row_key col_key).south
            - cell_y * 2 ^ overview_level * 256 := by
  refine ⟨rfl, rfl, ?_, ?_⟩ <;>
    · simp only [bytes_to_geotiff_bounds]
      ring

/-! ### C3: the band loop of `get_bytes_array` ignores the band index -/

/-- C3 is a code bug: with two bands and a 1×1 tile grid over the encoded
values `[1, 2]` (4-byte entries), both band row-blocks decode position 0
(value 1); the value at position `1 * tile_rows * tile_cols = 1`, which the
claimed band-major layout assigns to band 1, decodes to 2 and is never used. -/
theorem get_bytes_array_band_duplication :
    get_bytes_array 0 4 [1, 0, 0, 0, 2, 0, 0, 0] 1 1 2 = some [[1], [1]]
    ∧ get_long [1, 0, 0, 0, 2, 0, 0, 0] (1 * 4) 4 = some 2 := by
  decide

/-! ### C9: sample-type dispatch of the materializer -/

/-- C9 counterexample: for unsupported `(sample_format, bits_per_sample)`
combinations `get_data_type` returns `None`, and `bytes_to_geotiff` passes it
to `np.frombuffer` unchecked, so the buffer is reinterpreted with numpy's
default `float64` dtype — a typed buffer is produced instead of an
`UnsupportedSampleType` failure. -/
theorem get_data_type_unsupported_no_failure :
    get_data_type 3 8 = none ∧ bytes_to_geotiff_dtype 3 8 = DType.float64
    ∧ get_data_type 4 64 = none ∧ bytes_to_geotiff_dtype 4 64 = DType.float64 := by
  decide

/-- C9 amended: `get_data_type` returns a dtype exactly for unsigned/signed
integers at 8/16/32/64 bits and floats at 32/64 bits, with the claimed
mapping; for every other combination it returns `None`, which `bytes_to_geotiff`
does not check, so materialization proceeds with numpy's default `float64`
instead of failing. -/
theorem get_data_type_mapping (sample_format bit_per_sample : Nat) :
    ((get_data_type sample_format bit_per_sample).isSome ↔
      (((sample_format = 1 ∨ sample_format = 2)
          ∧ (bit_per_sample = 8 ∨ bit_per_sample = 16
              ∨ bit_per_sample = 32 ∨ bit_per_sample = 64))
        ∨ (sample_format = 3 ∧ (bit_per_sample = 32 ∨ bit_per_sample = 64))))
    ∧ (get_data_type sample_format bit_per_sample = none →
        bytes_to_geotiff_dtype sample_format bit_per_sample = DType.float64)
    ∧ get_data_type 1 8 = some DType.uint8 ∧ get_data_type 1 16 = some DType.uint16
    ∧ get_data_type 1 32 = some DType.uint32 ∧ get_data_type 1 64 = some DType.uint64
    ∧ get_data_type 2 8 = some DType.int8 ∧ get_data_type 2 16 = some DType.int16
    ∧ get_data_type 2 32 = some DType.int32 ∧ get_data_type 2 64 = some DType.int64
    ∧ get_data_type 3 32 = some DType.float32 ∧ get_data_type 3 64 = some DType.float64 := by
  refine ⟨?_, ?_, by decide, by decide, by decide, by decide, by decide, by decide,
    by decide, by decide, by decide, by decide⟩
  · unfold get_data_type
    split_ifs <;> simp_all
  · intro h
    unfold bytes_to_geotiff_dtype np_dtype
    rw [h]
    rfl

/-! ### C7: bounds behavior of the scalar decoders -/

lemma get_int_ii_go_eq_none_iff (pd : List Nat) (sp : Nat) :
    ∀ rem v i, (get_int_ii_go pd sp v i rem = none ↔ 1 ≤ rem ∧ pd.length < sp + i + rem) := by
  intro rem
  induction rem with
  | zero => intro v i; simp [get_int_ii_go]
  | succ n ih =>
    intro v i
    rw [get_int_ii_go]
    cases hb : pd[sp + i]? with
    | none =>
      have hlen : pd.length ≤ sp + i := List.getElem?_eq_none_iff.mp hb
      simp only []
      constructor
      · intro _; omega
      · intro _; trivial
    | some b =>
      have hlt : sp + i < pd.length := (List.getElem?_eq_some_iff.mp hb).1
      simp only []
      rw [ih]
      omega

lemma get_long_go_eq_none_iff (pd : List Nat) (sp : Nat) :
    ∀ rem v i, (get_long_go pd sp v i rem = none ↔ 1 ≤ rem ∧ pd.length < sp + i + rem) := by
  intro rem
  induction rem with
  | zero => intro v i; simp [get_long_go]
  | succ n ih =>
    intro v i
    rw [get_long_go]
    cases hb : pd[sp + i]? with
    | none =>
      have hlen : pd.length ≤ sp + i := List.getElem?_eq_none_iff.mp hb
      simp only []
      constructor
      · intro _; omega
      · intro _; trivial
    | some b =>
      have hlt : sp + i < pd.length := (List.getElem?_eq_some_iff.mp hb).1
      simp only []
      rw [ih]
      omega

lemma get_double_go_eq_none_iff (pd : List Nat) (sp : Nat) :
    ∀ rem v i, (get_double_go pd sp v i rem = none ↔ 1 ≤ rem ∧ pd.length < sp + i + rem) := by
  intro rem
  induction rem with
  | zero => intro v i; simp [get_double_go]
  | succ n ih =>
    intro v i
    rw [get_double_go]
    cases hb : pd[sp + i]? with
    | none =>
      have hlen : pd.length ≤ sp + i := List.getElem?_eq_none_iff.mp hb
      simp only []
      constructor
      · intro _; omega
      · intro _; trivial
    | some b =>
      have hlt : sp + i < pd.length := (List.getElem?_eq_some_iff.mp hb).1
      simp only []
      rw [ih]
      omega

/-- C7 counterexample: the claim says `get_string` fails whenever
`offset + length` exceeds the buffer length.  It does not: on the 2-byte
buffer `[65, 66]`, reading 5 bytes from offset 1 silently truncates to the
in-bounds slice and succeeds. -/
theorem get_string_out_of_bounds_succeeds :
    ([65, 66] : List Nat).length < 1 + 5 ∧ get_string [65, 66] 1 5 = some [66] := by
  decide

/-- C7 amended: `get_int_ii`, `get_long` and `get_double` (width ≥ 1) fail
exactly when `offset + width` exceeds the buffer length and succeed otherwise;
`get_string` never fails on bounds — an out-of-range read is silently
truncated to the in-bounds portion of the requested slice. -/
theorem scalar_decoder_bounds (pd : List Nat) (start_pos len : Nat) (h : 1 ≤ len) :
    (get_int_ii pd start_pos len = none ↔ pd.length < start_pos + len)
    ∧ (get_long pd start_pos len = none ↔ pd.length < start_pos + len)
    ∧ (get_double pd start_pos len = none ↔ pd.length < start_pos + len)
    ∧ get_string pd start_pos len
        = get_string pd start_pos (min len (pd.length - start_pos)) := by
  refine ⟨?_, ?_, ?_, ?_⟩
  · rw [get_int_ii, get_int_ii_go_eq_none_iff]; omega
  · rw [get_long, get_long_go_eq_none_iff]; omega
  · rw [get_double, get_double_go_eq_none_iff]; omega
  · unfold get_string
    have hdl : (pd.drop start_pos).length = pd.length - start_pos := List.length_drop _ _
    have htake : (pd.drop start_pos).take len
        = (pd.drop start_pos).take (min len (pd.length - start_pos)) := by
      rcases Nat.le_total len (pd.length - start_pos) with hle | hle
      · rw [Nat.min_eq_left hle]
      · rw [Nat.min_eq_right hle, List.take_of_length_le (by omega),
          List.take_of_length_le (by omega)]
    rw [htake]

/-- C7 witness: the amended bounds theorem applied at buffer `[65, 66]`,
offset 1, width 2. -/
theorem scalar_decoder_bounds_witness :
    (get_int_ii [65, 66] 1 2 = none ↔ ([65, 66] : List Nat).length < 1 + 2)
    ∧ (get_long [65, 66] 1 2 = none ↔ ([65, 66] : List Nat).length < 1 + 2)
    ∧ (get_double [65, 66] 1 2 = none ↔ ([65, 66] : List Nat).length < 1 + 2)
    ∧ get_string [65, 66] 1 2
        = get_string [65, 66] 1 (min 2 (([65, 66] : List Nat).length - 1)) :=
  scalar_decoder_bounds [65, 66] 1 2 (by decide)

/-! ### C10: `get_int_ii` and `get_long` are equivalent on byte buffers -/

lemma get_go_int_ii_eq_long (pd : List Nat) (h : ∀ b ∈ pd, b < 256) (sp : Nat) :
    ∀ rem v i, get_int_ii_go pd sp v i rem = get_long_go pd sp v i rem := by
  intro rem
  induction rem with
  | zero => intro v i; rfl
  | succ n ih =>
    intro v i
    rw [get_int_ii_go, get_long_go]
    cases hb : pd[sp + i]? with
    | none => rfl
    | some b =>
      have hmem : b ∈ pd := by
        have := (List.getElem?_eq_some_iff.mp hb)
        obtain ⟨hlt, hget⟩ := this
        exact hget ▸ List.getElem_mem hlt
      have h255 : b &&& 0xff = b := by
        have h8 : (0xff : Nat) = 2 ^ 8 - 1 := by norm_num
        rw [h8, Nat.and_pow_two_sub_one_of_lt_two_pow (by simpa using h b hmem)]
      simp only []
      rw [h255, Nat.mul_comm 8 i]
      exact ih _ _

/-- C10: on every byte buffer (all entries < 256, as guaranteed by a Python
`bytes` object), the two little-endian decoders `get_int_ii` and `get_long`
return identical results at every offset and width. -/
theorem get_int_ii_eq_get_long (pd : List Nat) (h : ∀ b ∈ pd, b < 256)
    (start_pos len : Nat) : get_int_ii pd start_pos len = get_long pd start_pos len :=
  get_go_int_ii_eq_long pd h start_pos len 0 0

/-- C10 witness: the equivalence applied to the concrete buffer `[1, 2]`. -/
theorem get_int_ii_eq_get_long_witness :
    (∀ b ∈ ([1, 2] : List Nat), b < 256)
    ∧ get_int_ii [1, 2] 0 2 = get_long [1, 2] 0 2 :=
  ⟨by decide, get_int_ii_eq_get_long [1, 2] (by decide) 0 2⟩

/-! ### C2: shape of the tile grid built by `get_bytes_array` -/

lemma ga_col_loop_length (header : List Nat) (sp ts rb : Nat) :
    ∀ rem j l, ga_col_loop header sp ts rb j rem = some l → l.length = rem := by
  intro rem
  induction rem with
  | zero =>
    intro j l hl
    simp only [ga_col_loop, Option.some.injEq] at hl
    simp [← hl]
  | succ n ih =>
    intro j l hl
    simp only [ga_col_loop, Option.bind_eq_bind', Option.bind_eq_some, Option.pure_def,
      Option.some.injEq] at hl
    obtain ⟨v, _, rest, hrest, hl2⟩ := hl
    rw [← hl2]
    simp [ih _ _ hrest]

lemma ga_row_loop_shape (header : List Nat) (sp ts tcx : Nat) :
    ∀ rem i g, ga_row_loop header sp ts tcx i rem = some g →
      g.length = rem ∧ ∀ row ∈ g, row.length = tcx := by
  intro rem
  induction rem with
  | zero =>
    intro i g hg
    simp only [ga_row_loop, Option.some.injEq] at hg
    simp [← hg]
  | succ n ih =>
    intro i g hg
    simp only [ga_row_loop, Option.bind_eq_bind', Option.bind_eq_some, Option.pure_def,
      Option.some.injEq] at hg
    obtain ⟨offsets, hoff, rest, hrest, hg2⟩ := hg
    obtain ⟨hlen, hrow⟩ := ih _ _ hrest
    rw [← hg2]
    refine ⟨by simp [hlen], ?_⟩
    intro row hrowmem
    rcases List.mem_cons.mp hrowmem with hrow0 | hrowrest
    · rw [hrow0]
      exact ga_col_loop_length header sp ts (i * tcx) tcx 0 offsets hoff
    · exact hrow row hrowrest

lemma ga_band_loop_shape (header : List Nat) (sp ts tcx tcy : Nat) :
    ∀ bands g, ga_band_loop header sp ts tcx tcy bands = some g →
      g.length = bands * tcy ∧ ∀ row ∈ g, row.length = tcx := by
  intro bands
  induction bands with
  | zero =>
    intro g hg
    simp only [ga_band_loop, Option.some.injEq] at hg
    simp [← hg]
  | succ n ih =>
    intro g hg
    simp only [ga_band_loop, Option.bind_eq_bind', Option.bind_eq_some, Option.pure_def,
      Option.some.injEq] at hg
    obtain ⟨rows, hrows, rest, hrest, hg2⟩ := hg
    obtain ⟨hlen1, hrow1⟩ := ga_row_loop_shape header sp ts tcx tcy 0 rows hrows
    obtain ⟨hlen2, hrow2⟩ := ih _ hrest
    rw [← hg2]
    constructor
    · simp [hlen1, hlen2]
      ring
    · intro row hrowmem
      rcases List.mem_append.mp hrowmem with hmem | hmem
      · exact hrow1 row hmem
      · exact hrow2 row hmem

/-- C2: whenever `get_bytes_array` succeeds, the grid it builds has
`band_count * ceil(height/256)` rows in total — `tile_rows = ceil(height/256)`
rows per band — and every row has `tile_cols = ceil(width/256)` entries, for
all width/height values (including exact multiples of 256 and off-by-one
sizes). -/
theorem get_bytes_array_shape (start_pos type_size : Nat) (header : List Nat)
    (image_width image_height band_count : Nat) (g : List (List Nat))
    (hg : get_bytes_array start_pos type_size header image_width image_height band_count
        = some g) :
    g.length = band_count * ((image_height + 255) / 256)
    ∧ ∀ row ∈ g, row.length = (image_width + 255) / 256 := by
  unfold get_bytes_array at hg
  have hx : (if image_width % 256 = 0 then image_width / 256 else image_width / 256 + 1)
      = (image_width + 255) / 256 := by
    split <;> omega
  have hy : (if image_height % 256 = 0 then image_height / 256 else image_height / 256 + 1)
      = (image_height + 255) / 256 := by
    split <;> omega
  rw [hx, hy] at hg
  exact ga_band_loop_shape header start_pos type_size _ _ band_count g hg

/-- C2 witness: a 2-band-free concrete instance with width = height = 257
(off-by-one over 256): the grid is 1 band × 2 rows of 2 entries. -/
theorem get_bytes_array_shape_witness :
    get_bytes_array 0 4 [1, 0, 0, 0, 2, 0, 0, 0, 3, 0, 0, 0, 4, 0, 0, 0] 257 257 1
        = some [[1, 2], [3, 4]]
    ∧ ([[1, 2], [3, 4]] : List (List Nat)).length = 1 * ((257 + 255) / 256)
    ∧ ∀ row ∈ ([[1, 2], [3, 4]] : List (List Nat)), row.length = (257 + 255) / 256 :=
  ⟨by decide,
   get_bytes_array_shape 0 4 [1, 0, 0, 0, 2, 0, 0, 0, 3, 0, 0, 0, 4, 0, 0, 0] 257 257 1
     [[1, 2], [3, 4]] (by decide)⟩

/-! ### C6: the materializer flips the stored row order -/

lemma np_frombuffer_length (byte_array : List Nat) (w : Nat) :
    (np_frombuffer byte_array w).length = byte_array.length / w := by
  simp [np_frombuffer]

lemma reshape_256_length (a : List Nat) : (reshape_256 a).length = 256 := by
  simp [reshape_256]

/-- C6: for every raw tile byte buffer of length `256*256*w` (`w` bytes per
sample), the materialized tile is a 256-row buffer whose row `i` is row
`255 - i` of the reinterpreted source samples — the stored bottom-to-top row
order is always flipped — and every row has 256 samples. -/
theorem tile_pixels_row_flip (byte_array : List Nat) (w : Nat) (hw : 0 < w)
    (hlen : byte_array.length = 256 * 256 * w) (i : Nat) (hi : i < 256) :
    (tile_pixels byte_array w)[i]?
        = some (((np_frombuffer byte_array w).drop (256 * (255 - i))).take 256)
    ∧ (((np_frombuffer byte_array w).drop (256 * (255 - i))).take 256).length = 256
    ∧ (tile_pixels byte_array w).length = 256 := by
  have hsam : (np_frombuffer byte_array w).length = 65536 := by
    rw [np_frombuffer_length, hlen, Nat.mul_div_cancel _ hw]
  refine ⟨?_, ?_, ?_⟩
  · unfold tile_pixels flip_rows
    rw [List.getElem?_reverse (by rw [reshape_256_length]; exact hi), reshape_256_length]
    unfold reshape_256
    rw [List.getElem?_map, List.getElem?_range (by omega)]
    simp only [Option.map_some']
  · rw [List.length_take, List.length_drop, hsam]
    omega
  · simp [tile_pixels, flip_rows, reshape_256_length]

/-- C6 witness: the flip theorem applied to a concrete all-ones 65536-byte
buffer with one byte per sample, at output row 0 (which must be source row
255). -/
theorem tile_pixels_row_flip_witness :
    (tile_pixels (List.replicate 65536 1) 1)[0]?
        = some (((np_frombuffer (List.replicate 65536 1) 1).drop (256 * (255 - 0))).take 256)
    ∧ (((np_frombuffer (List.replicate 65536 1) 1).drop (256 * (255 - 0))).take 256).length
        = 256
    ∧ (tile_pixels (List.replicate 65536 1) 1).length = 256 :=
  tile_pixels_row_flip (List.replicate 65536 1) 1 (by decide)
    (by rw [List.length_replicate]) 0 (by decide)

/-! ### C8: grid tags encountered before the level's scalar tags -/

/-- C8 counterexample: in `buf_c8` the level-1 tile-offset grid tag is
encountered (second block, first entry) before level 1's width/height/band
tags.  The walker does not fail with `MalformedValue`: it completes, decoding
that grid with level 0's dimensions (256×256×1 bands, hence the 1×1 grid
`[[200]]` instead of a 2×2 grid for the declared 512×512 level). -/
theorem grid_before_width_tag_no_failure :
    cog_header_bytes_parse buf_c8 3 = some
      { image_width := [256, 512], image_height := [256, 512], bit_per_sample := [],
        band_count := [1, 1], sample_format := [], tile_offsets := [[[100]], [[200]]],
        tile_byte_counts := [], cell_scale := [], geo_transform := [], crs := [],
        gdal_metadata := [], gdal_nodata := [], overview_level := 1 } := by
  decide

/-- C8 amended: under the walker's invariant
`overview_level = |image_width| - 1`, a tile-offset grid tag (tag 324)
(1) fails when no width tag has been seen at all, (2) otherwise resolves its
dimension lookups to the MOST RECENTLY seen width (the same-level width only
when the encoder emitted it before the grid tag), and (3) fails when the
height list has no entry at the current level index. -/
theorem dispatch_grid_tag_level (header_bytes : List Nat)
    (type_size count p_data : Nat) (s : ParseState)
    (hinv : s.overview_level = (s.image_width.length : Int) - 1) :
    (s.image_width = [] →
      dispatch_tag header_bytes 324 type_size count p_data s = none)
    ∧ (s.image_width ≠ [] →
      py_get s.image_width s.overview_level = s.image_width.getLast?)
    ∧ (s.image_height.length < s.image_width.length →
      dispatch_tag header_bytes 324 type_size count p_data s = none) := by
  refine ⟨?_, ?_, ?_⟩
  · intro h1
    have hov : s.overview_level = -1 := by rw [hinv, h1]; rfl
    simp [dispatch_tag, py_get, hov, h1]
  · intro h1
    have hlen : 1 ≤ s.image_width.length := by
      cases hw : s.image_width with
      | nil => exact absurd hw h1
      | cons a t => simp [hw]
    have h0 : (0 : Int) ≤ (s.image_width.length : Int) - 1 := by omega
    have htn : ((s.image_width.length : Int) - 1).toNat = s.image_width.length - 1 := by
      omega
    rw [hinv, py_get, if_pos h0, htn, List.getLast?_eq_getElem?]
  · intro hlt
    have hh : py_get s.image_height s.overview_level = none := by
      rw [hinv, py_get, if_pos (by omega)]
      apply List.getElem?_eq_none
      omega
    cases hw : py_get s.image_width s.overview_level with
    | none => simp [dispatch_tag, hw]
    | some w => simp [dispatch_tag, hw, hh]

/-- C8 witness: the amended theorem applied at the state reached after level
0's width tag (width 256 seen, height and band lists still empty): the
dimension lookup resolves to the last width, and a grid tag fails because the
height list is still empty. -/
theorem dispatch_grid_tag_level_witness :
    (({ init_state with image_width := [256], overview_level := 0 } : ParseState).image_width
        = [] →
      dispatch_tag [] 324 4 1 0 { init_state with image_width := [256], overview_level := 0 }
        = none)
    ∧ (({ init_state with image_width := [256], overview_level := 0 } : ParseState).image_width
        ≠ [] →
      py_get ({ init_state with image_width := [256], overview_level := 0 } :
          ParseState).image_width 0
        = [256].getLast?)
    ∧ (({ init_state with image_width := [256], overview_level := 0 } :
          ParseState).image_height.length
        < ({ init_state with image_width := [256], overview_level := 0 } :
          ParseState).image_width.length →
      dispatch_tag [] 324 4 1 0 { init_state with image_width := [256], overview_level := 0 }
        = none) :=
  dispatch_grid_tag_level [] 4 1 0
    { init_state with image_width := [256], overview_level := 0 } (by decide)

/-! ### C1: the walker realizes the spec's directory-chain state machine -/

/-- The Python guard `if value < 0: value += ...` never fires on naturals. -/
lemma nat_neg_guard (v s : Nat) : (if v < 0 then v + s else v) = v :=
  if_neg (Nat.not_lt_zero v)

/-- Bitwise-or of a value below `2^n` with a value shifted left by `n` is
plain addition: the accumulation step of the little-endian decoders. -/
lemma lor_shiftLeft_eq_add (n : Nat) :
    ∀ a b : Nat, a < 2 ^ n → a ||| (b <<< n) = a + b * 2 ^ n := by
  induction n with
  | zero =>
    intro a b h
    have ha : a = 0 := by omega
    subst ha
    simp [Nat.shiftLeft_eq]
  | succ n ih =>
    intro a b h
    have hc : b <<< (n + 1) = 2 * (b <<< n) := by
      simp only [Nat.shiftLeft_eq, Nat.pow_succ]
      ring
    have hdiv : (a ||| (b <<< (n + 1))) / 2 = a / 2 ||| (b <<< n) := by
      rw [Nat.or_div_two, hc, Nat.mul_div_cancel_left _ (by norm_num)]
    have hmod2 : (b <<< (n + 1)) % 2 = 0 := by
      rw [hc]
      omega
    have hmod : (a ||| (b <<< (n + 1))) % 2 = a % 2 := by
      have hiff := Nat.or_mod_two_eq_one (a := a) (b := b <<< (n + 1))
      omega
    have hx : a / 2 < 2 ^ n := by
      rw [Nat.pow_succ] at h
      omega
    have ih' := ih (a / 2) b hx
    have hsplit : a ||| (b <<< (n + 1))
        = 2 * ((a ||| (b <<< (n + 1))) / 2) + (a ||| (b <<< (n + 1))) % 2 := by
      omega
    rw [hsplit, hdiv, hmod, ih']
    have hp : b * 2 ^ (n + 1) = 2 * (b * 2 ^ n) := by ring
    rw [hp]
    omega

lemma pow_256_eq (i : Nat) : (2 : Nat) ^ (i * 8) = 256 ^ i := by
  rw [Nat.mul_comm, Nat.pow_mul]

/-- Closed form of the `get_int_ii` loop on an in-bounds byte-buffer read:
it returns the accumulator plus the little-endian positional sum. -/
lemma get_int_ii_go_spec (pd : List Nat) (hbytes : ∀ b ∈ pd, b < 256) (sp : Nat) :
    ∀ rem i v, v < 2 ^ (i * 8) → sp + i + rem ≤ pd.length →
      get_int_ii_go pd sp v i rem
        = some (v + ((List.range rem).map
            (fun j => pd.getD (sp + i + j) 0 * 256 ^ (i + j))).sum) := by
  intro rem
  induction rem with
  | zero =>
    intro i v _ _
    simp [get_int_ii_go]
  | succ n ih =>
    intro i v hv hle
    have hi : sp + i < pd.length := by omega
    have hb : pd[sp + i]? = some (pd.getD (sp + i) 0) := by
      rw [List.getD_eq_getElem?_getD, List.getElem?_eq_getElem hi]
      rfl
    have hblt : pd.getD (sp + i) 0 < 256 := by
      have hmem : pd.getD (sp + i) 0 ∈ pd := by
        rw [List.getD_eq_getElem?_getD, List.getElem?_eq_getElem hi]
        simp only [Option.getD_some]
        exact List.getElem_mem hi
      exact hbytes _ hmem
    rw [get_int_ii_go, hb]
    simp only [nat_neg_guard]
    rw [lor_shiftLeft_eq_add (i * 8) v _ hv]
    have hv' : v + pd.getD (sp + i) 0 * 2 ^ (i * 8) < 2 ^ ((i + 1) * 8) := by
      have h1 : pd.getD (sp + i) 0 * 2 ^ (i * 8) ≤ 255 * 2 ^ (i * 8) :=
        Nat.mul_le_mul_right _ (by omega)
      have h2 : (2 : Nat) ^ ((i + 1) * 8) = 256 * 2 ^ (i * 8) := by
        rw [show (i + 1) * 8 = i * 8 + 8 from by ring, Nat.pow_add]
        ring
      omega
    rw [ih (i + 1) _ hv' (by omega)]
    congr 1
    rw [List.range_succ_eq_map, List.map_cons, List.sum_cons, List.map_map]
    rw [pow_256_eq]
    have hfn : ((fun j => pd.getD (sp + i + j) 0 * 256 ^ (i + j)) ∘ Nat.succ)
        = fun j => pd.getD (sp + (i + 1) + j) 0 * 256 ^ (i + 1 + j) := by
      funext j
      simp only [Function.comp_apply, Nat.succ_eq_add_one]
      rw [show sp + i + (j + 1) = sp + (i + 1) + j from by ring,
        show i + (j + 1) = i + 1 + j from by ring]
    rw [hfn]
    simp only [Nat.add_zero, Nat.pow_zero]
    omega

/-- `get_int_ii` agrees with the spec-side little-endian read on byte buffers
for every width ≥ 1 (both on success values and on failure). -/
lemma get_int_ii_eq_spec_read_le (pd : List Nat) (hbytes : ∀ b ∈ pd, b < 256)
    (off width : Nat) (hw : 1 ≤ width) :
    get_int_ii pd off width = spec_read_le pd off width := by
  by_cases hin : off + width ≤ pd.length
  · rw [get_int_ii, get_int_ii_go_spec pd hbytes off width 0 0 (by simp) (by omega),
      spec_read_le, if_pos hin]
    simp
  · rw [spec_read_le, if_neg hin, get_int_ii]
    exact (get_int_ii_go_eq_none_iff pd off width 0 0).mpr ⟨hw, by omega⟩

/-- The entry decode of the walker matches the spec's entry decode: the only
syntactic differences are the little-endian reads and the mirrored inline-vs-
pointer conditional (`> 4` versus `≤ 4`). -/
lemma process_entry_eq_spec (hb : List Nat) (hbytes : ∀ b ∈ hb, b < 256)
    (ifh : Nat) (s : ParseState) :
    process_entry hb ifh s = spec_entry_step hb ifh s := by
  have h2 : ∀ off, get_int_ii hb off 2 = spec_read_le hb off 2 := fun off =>
    get_int_ii_eq_spec_read_le hb hbytes off 2 (by omega)
  have h4 : ∀ off, get_int_ii hb off 4 = spec_read_le hb off 4 := fun off =>
    get_int_ii_eq_spec_read_le hb hbytes off 4 (by omega)
  unfold process_entry spec_entry_step
  simp only [Option.bind_eq_bind', h2, h4]
  apply Option.bind_congr
  intro tag _
  apply Option.bind_congr
  intro ty _
  apply Option.bind_congr
  intro cnt _
  apply Option.bind_congr
  intro tw _
  by_cases hc : tw * cnt ≤ 4
  · rw [if_neg (show ¬tw * cnt > 4 by omega), if_pos hc]
  · rw [if_pos (show tw * cnt > 4 by omega), if_neg hc]

lemma entries_loop_eq_spec (hb : List Nat) (hbytes : ∀ b ∈ hb, b < 256)
    (block_off : Nat) :
    ∀ n k s, entries_loop hb n (block_off + 2 + 12 * k) s
      = (spec_entries hb block_off k n s).map
          (fun s' => (block_off + 2 + 12 * (k + n), s')) := by
  intro n
  induction n with
  | zero =>
    intro k s
    simp [entries_loop, spec_entries]
  | succ n ih =>
    intro k s
    rw [entries_loop, spec_entries]
    simp only [Option.bind_eq_bind']
    rw [process_entry_eq_spec hb hbytes]
    cases hstep : spec_entry_step hb (block_off + 2 + 12 * k) s with
    | none => simp
    | some s' =>
      simp only [Option.some_bind]
      rw [show block_off + 2 + 12 * k + 12 = block_off + 2 + 12 * (k + 1) from by ring,
        ih (k + 1) s', show k + 1 + n = k + (n + 1) from by omega]

lemma entries_loop_eq_spec0 (hb : List Nat) (hbytes : ∀ b ∈ hb, b < 256)
    (o n : Nat) (s : ParseState) :
    entries_loop hb n (o + 2) s
      = (spec_entries hb o 0 n s).map (fun s' => (o + 2 + 12 * n, s')) := by
  have h := entries_loop_eq_spec hb hbytes o n 0 s
  simpa using h

lemma parse_ifd_eq_spec (hb : List Nat) (hbytes : ∀ b ∈ hb, b < 256) :
    ∀ fuel o s, parse_ifd hb fuel o s = spec_chain_walk_go hb fuel o s := by
  intro fuel
  induction fuel with
  | zero => intro o s; rfl
  | succ fuel ih =>
    intro o s
    rw [parse_ifd, spec_chain_walk_go]
    by_cases ho : o = 0
    · rw [if_pos ho, if_pos ho]
    · rw [if_neg ho, if_neg ho]
      unfold spec_block
      simp only [Option.bind_eq_bind', Option.bind_assoc]
      rw [get_int_ii_eq_spec_read_le hb hbytes o 2 (by omega)]
      apply Option.bind_congr
      intro n _
      rw [entries_loop_eq_spec0 hb hbytes o n s]
      cases hres : spec_entries hb o 0 n s with
      | none => simp
      | some s' =>
        simp only [Option.map_some', Option.some_bind]
        rw [get_int_ii_eq_spec_read_le hb hbytes (o + 2 + 12 * n) 4 (by omega)]
        apply Option.bind_congr
        intro next _
        exact ih next s'

/-- C1: on every byte buffer, for every iteration bound, the walker
`cog_header_bytes_parse` computes exactly the spec's state machine: initial
offset from the 4-byte little-endian field at byte offset 4; per block a
2-byte entry count, that many 12-byte entries (2-byte tag, 2-byte type, 4-byte
count, value inline at `entry_offset + 8` iff `type_width * count ≤ 4`,
otherwise through the 4-byte pointer there), then the 4-byte next-block offset
after the last entry, terminating exactly on offset 0. -/
theorem cog_parse_eq_spec_chain_walk (hb : List Nat) (hbytes : ∀ b ∈ hb, b < 256)
    (fuel : Nat) : cog_header_bytes_parse hb fuel = spec_chain_walk hb fuel := by
  unfold cog_header_bytes_parse spec_chain_walk
  simp only [Option.bind_eq_bind']
  rw [get_int_ii_eq_spec_read_le hb hbytes 4 4 (by omega)]
  exact Option.bind_congr fun o _ => parse_ifd_eq_spec hb hbytes fuel o init_state

/-- C1 witness: the equivalence applied to the concrete 33-byte chain
`buf_c4_full`. -/
theorem cog_parse_eq_spec_chain_walk_witness :
    (∀ b ∈ buf_c4_full, b < 256)
    ∧ cog_header_bytes_parse buf_c4_full 2 = spec_chain_walk buf_c4_full 2 :=
  ⟨by decide, cog_parse_eq_spec_chain_walk buf_c4_full (by decide) 2⟩

/-! ### C4: parsing a truncated header

Every numeric read that succeeds on a prefix of the buffer returns the same
value on the full buffer ("monotonicity"); string reads silently truncate.
That yields the simulation between a run on `hb.take n` and a run on `hb`. -/

lemma take_getElem?_some {α : Type} {l : List α} {n i : Nat} {a : α}
    (h : (l.take n)[i]? = some a) : l[i]? = some a := by
  have hi : i < (l.take n).length := (List.getElem?_eq_some_iff.mp h).1
  rw [List.length_take] at hi
  rw [List.getElem?_take_of_lt (by omega : i < n)] at h
  exact h

lemma get_int_ii_go_take (pd : List Nat) (n sp : Nat) :
    ∀ rem i v r, get_int_ii_go (pd.take n) sp v i rem = some r →
      get_int_ii_go pd sp v i rem = some r := by
  intro rem
  induction rem with
  | zero => intro i v r h; exact h
  | succ m ih =>
    intro i v r h
    rw [get_int_ii_go] at h
    cases hb : (pd.take n)[sp + i]? with
    | none => rw [hb] at h; exact absurd h (by simp)
    | some b =>
      rw [hb] at h
      rw [get_int_ii_go, take_getElem?_some hb]
      exact ih _ _ _ h

lemma get_int_ii_take (pd : List Nat) (n sp len r : Nat)
    (h : get_int_ii (pd.take n) sp len = some r) : get_int_ii pd sp len = some r :=
  get_int_ii_go_take pd n sp len 0 0 r h

lemma get_long_go_take (pd : List Nat) (n sp : Nat) :
    ∀ rem i v r, get_long_go (pd.take n) sp v i rem = some r →
      get_long_go pd sp v i rem = some r := by
  intro rem
  induction rem with
  | zero => intro i v r h; exact h
  | succ m ih =>
    intro i v r h
    rw [get_long_go] at h
    cases hb : (pd.take n)[sp + i]? with
    | none => rw [hb] at h; exact absurd h (by simp)
    | some b =>
      rw [hb] at h
      rw [get_long_go, take_getElem?_some hb]
      exact ih _ _ _ h

lemma get_long_take (pd : List Nat) (n sp len r : Nat)
    (h : get_long (pd.take n) sp len = some r) : get_long pd sp len = some r :=
  get_long_go_take pd n sp len 0 0 r h

lemma get_double_go_take (pd : List Nat) (n sp : Nat) :
    ∀ rem i v r, get_double_go (pd.take n) sp v i rem = some r →
      get_double_go pd sp v i rem = some r := by
  intro rem
  induction rem with
  | zero => intro i v r h; exact h
  | succ m ih =>
    intro i v r h
    rw [get_double_go] at h
    cases hb : (pd.take n)[sp + i]? with
    | none => rw [hb] at h; exact absurd h (by simp)
    | some b =>
      rw [hb] at h
      rw [get_double_go, take_getElem?_some hb]
      exact ih _ _ _ h

lemma get_double_take (pd : List Nat) (n sp len r : Nat)
    (h : get_double (pd.take n) sp len = some r) : get_double pd sp len = some r :=
  get_double_go_take pd n sp len 0 0 r h

lemma gd_loop_take (pd : List Nat) (n sp ts : Nat) :
    ∀ rem i r, gd_loop (pd.take n) sp ts i rem = some r →
      gd_loop pd sp ts i rem = some r := by
  intro rem
  induction rem with
  | zero => intro i r h; exact h
  | succ m ih =>
    intro i r h
    simp only [gd_loop, Option.bind_eq_bind', Option.bind_eq_some, Option.pure_def,
      Option.some.injEq] at h ⊢
    obtain ⟨v, hv, rest, hrest, hr⟩ := h
    exact ⟨v, get_double_take pd n _ _ v hv, rest, ih _ _ hrest, hr⟩

lemma get_double_cell_take (pd : List Nat) (n sp ts cnt : Nat) (r : List Nat)
    (h : get_double_cell sp ts cnt (pd.take n) = some r) :
    get_double_cell sp ts cnt pd = some r :=
  gd_loop_take pd n sp ts cnt 0 r h

lemma get_double_trans_take (pd : List Nat) (n sp ts cnt : Nat) (r : List Nat)
    (h : get_double_trans sp ts cnt (pd.take n) = some r) :
    get_double_trans sp ts cnt pd = some r :=
  gd_loop_take pd n sp ts cnt 0 r h

lemma ga_col_loop_take (pd : List Nat) (n sp ts rb : Nat) :
    ∀ rem j r, ga_col_loop (pd.take n) sp ts rb j rem = some r →
      ga_col_loop pd sp ts rb j rem = some r := by
  intro rem
  induction rem with
  | zero => intro j r h; exact h
  | succ m ih =>
    intro j r h
    simp only [ga_col_loop, Option.bind_eq_bind', Option.bind_eq_some, Option.pure_def,
      Option.some.injEq] at h ⊢
    obtain ⟨v, hv, rest, hrest, hr⟩ := h
    exact ⟨v, get_long_take pd n _ _ v hv, rest, ih _ _ hrest, hr⟩

lemma ga_row_loop_take (pd : List Nat) (n sp ts tcx : Nat) :
    ∀ rem i r, ga_row_loop (pd.take n) sp ts tcx i rem = some r →
      ga_row_loop pd sp ts tcx i rem = some r := by
  intro rem
  induction rem with
  | zero => intro i r h; exact h
  | succ m ih =>
    intro i r h
    simp only [ga_row_loop, Option.bind_eq_bind', Option.bind_eq_some, Option.pure_def,
      Option.some.injEq] at h ⊢
    obtain ⟨row, hrow, rest, hrest, hr⟩ := h
    exact ⟨row, ga_col_loop_take pd n _ _ _ _ _ _ hrow, rest, ih _ _ hrest, hr⟩

lemma ga_band_loop_take (pd : List Nat) (n sp ts tcx tcy : Nat) :
    ∀ bands r, ga_band_loop (pd.take n) sp ts tcx tcy bands = some r →
      ga_band_loop pd sp ts tcx tcy bands = some r := by
  intro bands
  induction bands with
  | zero => intro r h; exact h
  | succ m ih =>
    intro r h
    simp only [ga_band_loop, Option.bind_eq_bind', Option.bind_eq_some, Option.pure_def,
      Option.some.injEq] at h ⊢
    obtain ⟨rows, hrows, rest, hrest, hr⟩ := h
    exact ⟨rows, ga_row_loop_take pd n _ _ _ _ _ _ hrows, rest, ih _ hrest, hr⟩

lemma get_bytes_array_take (pd : List Nat) (n sp ts w h b : Nat) (r : List (List Nat))
    (hr : get_bytes_array sp ts (pd.take n) w h b = some r) :
    get_bytes_array sp ts pd w h b = some r := by
  unfold get_bytes_array at hr ⊢
  exact ga_band_loop_take pd n sp ts _ _ b r hr

lemma get_string_some_eq (pd : List Nat) (sp len : Nat) {x : List Nat}
    (h : get_string pd sp len = some x) : x = (pd.drop sp).take len := by
  simp only [get_string] at h
  split at h
  · exact (Option.some.injEq _ _).mp h |>.symm
  · exact absurd h (by simp)

lemma get_string_take_of_both (pd : List Nat) (n sp len : Nat) {r r' : List Nat}
    (hpre : get_string (pd.take n) sp len = some r')
    (hfull : get_string pd sp len = some r) : r' <+: r := by
  have h1 := get_string_some_eq _ _ _ hpre
  have h2 := get_string_some_eq _ _ _ hfull
  subst h2
  rw [h1, List.drop_take, List.take_take, Nat.min_comm, ← List.take_take]
  exact List.take_prefix _ _

lemma state_approx_refl (s : ParseState) : StateApprox s s := by
  unfold StateApprox
  refine ⟨rfl, rfl, rfl, rfl, rfl, rfl, rfl, rfl, rfl, rfl, ?_, ?_, ?_⟩ <;>
    exact List.prefix_rfl

/-- One dispatch step preserves the truncation simulation: if both the
truncated-buffer run and the full-buffer run succeed on the same decoded
entry, the results stay related. -/
lemma dispatch_tag_approx (hb : List Nat) (n tag tw cnt p_data : Nat)
    {s' s t' t : ParseState} (happrox : StateApprox s' s)
    (hpre : dispatch_tag (hb.take n) tag tw cnt p_data s' = some t')
    (hfull : dispatch_tag hb tag tw cnt p_data s = some t) :
    StateApprox t' t := by
  obtain ⟨aw, ah, abps, abc, asf, ato, atbc, acs, agt, aov, acrs, agm, agn⟩ := happrox
  by_cases h1 : tag = 256
  · subst h1
    unfold dispatch_tag at hpre hfull
    rw [if_pos rfl] at hpre hfull
    simp only [Option.bind_eq_bind', Option.bind_eq_some, Option.pure_def,
      Option.some.injEq] at hpre hfull
    obtain ⟨v', hv', ht'⟩ := hpre
    obtain ⟨v, hv, ht⟩ := hfull
    rw [get_int_ii_take hb n p_data tw v' hv'] at hv
    injection hv with hvv
    subst ht' ht
    exact ⟨by rw [aw, hvv], ah, abps, abc, asf, ato, atbc, acs, agt,
      by rw [aov], acrs, agm, agn⟩
  by_cases h2 : tag = 257
  · subst h2
    unfold dispatch_tag at hpre hfull
    rw [if_neg h1, if_pos rfl] at hpre hfull
    simp only [Option.bind_eq_bind', Option.bind_eq_some, Option.pure_def,
      Option.some.injEq] at hpre hfull
    obtain ⟨v', hv', ht'⟩ := hpre
    obtain ⟨v, hv, ht⟩ := hfull
    rw [get_int_ii_take hb n p_data tw v' hv'] at hv
    injection hv with hvv
    subst ht' ht
    exact ⟨aw, by rw [ah, hvv], abps, abc, asf, ato, atbc, acs, agt, aov, acrs, agm, agn⟩
  by_cases h3 : tag = 258
  · subst h3
    unfold dispatch_tag at hpre hfull
    rw [if_neg h1, if_neg h2, if_pos rfl] at hpre hfull
    simp only [Option.bind_eq_bind', Option.bind_eq_some, Option.pure_def,
      Option.some.injEq] at hpre hfull
    obtain ⟨v', hv', ht'⟩ := hpre
    obtain ⟨v, hv, ht⟩ := hfull
    rw [get_int_ii_take hb n p_data tw v' hv'] at hv
    injection hv with hvv
    subst ht' ht
    exact ⟨aw, ah, by rw [abps, hvv], abc, asf, ato, atbc, acs, agt, aov, acrs, agm, agn⟩
  by_cases h4 : tag = 277
  · subst h4
    unfold dispatch_tag at hpre hfull
    rw [if_neg h1, if_neg h2, if_neg h3, if_pos rfl] at hpre hfull
    simp only [Option.bind_eq_bind', Option.bind_eq_some, Option.pure_def,
      Option.some.injEq] at hpre hfull
    obtain ⟨v', hv', ht'⟩ := hpre
    obtain ⟨v, hv, ht⟩ := hfull
    rw [get_int_ii_take hb n p_data tw v' hv'] at hv
    injection hv with hvv
    subst ht' ht
    exact ⟨aw, ah, abps, by rw [abc, hvv], asf, ato, atbc, acs, agt, aov, acrs, agm, agn⟩
  by_cases h5 : tag = 324
  · subst h5
    unfold dispatch_tag at hpre hfull
    rw [if_neg h1, if_neg h2, if_neg h3, if_neg h4, if_pos rfl] at hpre hfull
    simp only [Option.bind_eq_bind', Option.bind_eq_some, Option.pure_def,
      Option.some.injEq] at hpre hfull
    obtain ⟨w', hw', hgt', hh', b', hb', g', hg', ht'⟩ := hpre
    obtain ⟨w, hw, hgt, hh, b, hbv, g, hg, ht⟩ := hfull
    rw [aw, aov] at hw'
    rw [hw'] at hw
    injection hw with hww
    rw [ah, aov] at hh'
    rw [hh'] at hh
    injection hh with hhh
    rw [abc, aov] at hb'
    rw [hb'] at hbv
    injection hbv with hbb
    subst hww hhh hbb
    rw [get_bytes_array_take hb n p_data tw w' hgt' b' g' hg'] at hg
    injection hg with hgg
    subst ht' ht
    exact ⟨aw, ah, abps, abc, asf, by rw [ato, hgg], atbc, acs, agt, aov, acrs, agm, agn⟩
  by_cases h6 : tag = 325
  · subst h6
    unfold dispatch_tag at hpre hfull
    rw [if_neg h1, if_neg h2, if_neg h3, if_neg h4, if_neg h5, if_pos rfl] at hpre hfull
    simp only [Option.bind_eq_bind', Option.bind_eq_some, Option.pure_def,
      Option.some.injEq] at hpre hfull
    obtain ⟨w', hw', hgt', hh', b', hb', g', hg', ht'⟩ := hpre
    obtain ⟨w, hw, hgt, hh, b, hbv, g, hg, ht⟩ := hfull
    rw [aw, aov] at hw'
    rw [hw'] at hw
    injection hw with hww
    rw [ah, aov] at hh'
    rw [hh'] at hh
    injection hh with hhh
    rw [abc, aov] at hb'
    rw [hb'] at hbv
    injection hbv with hbb
    subst hww hhh hbb
    rw [get_bytes_array_take hb n p_data tw w' hgt' b' g' hg'] at hg
    injection hg with hgg
    subst ht' ht
    exact ⟨aw, ah, abps, abc, asf, ato, by rw [atbc, hgg], acs, agt, aov, acrs, agm, agn⟩
  by_cases h7 : tag = 339
  · subst h7
    unfold dispatch_tag at hpre hfull
    rw [if_neg h1, if_neg h2, if_neg h3, if_neg h4, if_neg h5, if_neg h6,
      if_pos rfl] at hpre hfull
    simp only [Option.bind_eq_bind', Option.bind_eq_some, Option.pure_def,
      Option.some.injEq] at hpre hfull
    obtain ⟨v', hv', ht'⟩ := hpre
    obtain ⟨v, hv, ht⟩ := hfull
    rw [get_int_ii_take hb n p_data tw v' hv'] at hv
    injection hv with hvv
    subst ht' ht
    exact ⟨aw, ah, abps, abc, by rw [asf, hvv], ato, atbc, acs, agt, aov, acrs, agm, agn⟩
  by_cases h8 : tag = 33550
  · subst h8
    unfold dispatch_tag at hpre hfull
    rw [if_neg h1, if_neg h2, if_neg h3, if_neg h4, if_neg h5, if_neg h6, if_neg h7,
      if_pos rfl] at hpre hfull
    simp only [Option.bind_eq_bind', Option.bind_eq_some, Option.pure_def,
      Option.some.injEq] at hpre hfull
    obtain ⟨v', hv', ht'⟩ := hpre
    obtain ⟨v, hv, ht⟩ := hfull
    rw [get_double_cell_take hb n p_data tw cnt v' hv'] at hv
    injection hv with hvv
    subst ht' ht
    exact ⟨aw, ah, abps, abc, asf, ato, atbc, by rw [hvv], agt, aov, acrs, agm, agn⟩
  by_cases h9 : tag = 33922
  · subst h9
    unfold dispatch_tag at hpre hfull
    rw [if_neg h1, if_neg h2, if_neg h3, if_neg h4, if_neg h5, if_neg h6, if_neg h7,
      if_neg h8, if_pos rfl] at hpre hfull
    simp only [Option.bind_eq_bind', Option.bind_eq_some, Option.pure_def,
      Option.some.injEq] at hpre hfull
    obtain ⟨v', hv', ht'⟩ := hpre
    obtain ⟨v, hv, ht⟩ := hfull
    rw [get_double_trans_take hb n p_data tw cnt v' hv'] at hv
    injection hv with hvv
    subst ht' ht
    exact ⟨aw, ah, abps, abc, asf, ato, atbc, acs, by rw [hvv], aov, acrs, agm, agn⟩
  by_cases h10 : tag = 34737
  · subst h10
    unfold dispatch_tag at hpre hfull
    rw [if_neg h1, if_neg h2, if_neg h3, if_neg h4, if_neg h5, if_neg h6, if_neg h7,
      if_neg h8, if_neg h9, if_pos rfl] at hpre hfull
    by_cases hc : (tw : Int) * (cnt : Int) - 1 < 0
    · rw [if_pos hc] at hpre
      exact absurd hpre (by simp)
    · rw [if_neg hc] at hpre hfull
      simp only [Option.bind_eq_bind', Option.bind_eq_some, Option.pure_def,
        Option.some.injEq] at hpre hfull
      obtain ⟨v', hv', ht'⟩ := hpre
      obtain ⟨v, hv, ht⟩ := hfull
      subst ht' ht
      exact ⟨aw, ah, abps, abc, asf, ato, atbc, acs, agt, aov,
        get_string_take_of_both hb n p_data (tw * cnt - 1) hv' hv, agm, agn⟩
  by_cases h11 : tag = 42112
  · subst h11
    unfold dispatch_tag at hpre hfull
    rw [if_neg h1, if_neg h2, if_neg h3, if_neg h4, if_neg h5, if_neg h6, if_neg h7,
      if_neg h8, if_neg h9, if_neg h10, if_pos rfl] at hpre hfull
    by_cases hc : (tw : Int) * (cnt : Int) - 1 < 0
    · rw [if_pos hc] at hpre
      exact absurd hpre (by simp)
    · rw [if_neg hc] at hpre hfull
      simp only [Option.bind_eq_bind', Option.bind_eq_some, Option.pure_def,
        Option.some.injEq] at hpre hfull
      obtain ⟨v', hv', ht'⟩ := hpre
      obtain ⟨v, hv, ht⟩ := hfull
      subst ht' ht
      exact ⟨aw, ah, abps, abc, asf, ato, atbc, acs, agt, aov, acrs,
        get_string_take_of_both hb n p_data (tw * cnt - 1) hv' hv, agn⟩
  by_cases h12 : tag = 42113
  · subst h12
    unfold dispatch_tag at hpre hfull
    rw [if_neg h1, if_neg h2, if_neg h3, if_neg h4, if_neg h5, if_neg h6, if_neg h7,
      if_neg h8, if_neg h9, if_neg h10, if_neg h11, if_pos rfl] at hpre hfull
    by_cases hc : (tw : Int) * (cnt : Int) - 1 < 0
    · rw [if_pos hc] at hpre
      exact absurd hpre (by simp)
    · rw [if_neg hc] at hpre hfull
      simp only [Option.bind_eq_bind', Option.bind_eq_some, Option.pure_def,
        Option.some.injEq] at hpre hfull
      obtain ⟨v', hv', ht'⟩ := hpre
      obtain ⟨v, hv, ht⟩ := hfull
      subst ht' ht
      exact ⟨aw, ah, abps, abc, asf, ato, atbc, acs, agt, aov, acrs, agm,
        get_string_take_of_both hb n p_data (tw * cnt - 1) hv' hv⟩
  · unfold dispatch_tag at hpre hfull
    rw [if_neg h1, if_neg h2, if_neg h3, if_neg h4, if_neg h5, if_neg h6, if_neg h7,
      if_neg h8, if_neg h9, if_neg h10, if_neg h11, if_neg h12] at hpre hfull
    have hps : s' = t' := by simpa using hpre
    have hfs : s = t := by simpa using hfull
    subst hps hfs
    exact ⟨aw, ah, abps, abc, asf, ato, atbc, acs, agt, aov, acrs, agm, agn⟩

/-- One full directory entry preserves the truncation simulation. -/
lemma process_entry_approx (hb : List Nat) (n ifh : Nat) {s' s t' t : ParseState}
    (happrox : StateApprox s' s)
    (hpre : process_entry (hb.take n) ifh s' = some t')
    (hfull : process_entry hb ifh s = some t) : StateApprox t' t := by
  simp only [process_entry, Option.bind_eq_bind', Option.bind_eq_some] at hpre hfull
  obtain ⟨tag', htag', ty', hty', cnt', hcnt', tw', htw', hrest'⟩ := hpre
  obtain ⟨tag, htag, ty, hty, cnt, hcnt, tw, htw, hrest⟩ := hfull
  rw [get_int_ii_take hb n ifh 2 tag' htag'] at htag
  injection htag with htt
  subst htt
  rw [get_int_ii_take hb n (ifh + 2) 2 ty' hty'] at hty
  injection hty with hyy
  subst hyy
  rw [get_int_ii_take hb n (ifh + 4) 4 cnt' hcnt'] at hcnt
  injection hcnt with hcc
  subst hcc
  rw [htw'] at htw
  injection htw with hww
  subst hww
  by_cases hsz : tw' * cnt' > 4
  · rw [if_pos hsz] at hrest' hrest
    simp only [Option.bind_eq_bind', Option.bind_eq_some] at hrest' hrest
    obtain ⟨p', hp', hd'⟩ := hrest'
    obtain ⟨p, hp, hd⟩ := hrest
    rw [get_int_ii_take hb n (ifh + 8) 4 p' hp'] at hp
    injection hp with hpp
    subst hpp
    exact dispatch_tag_approx hb n tag' tw' cnt' p' happrox hd' hd
  · rw [if_neg hsz] at hrest' hrest
    simp only [Option.pure_def, Option.some_bind] at hrest' hrest
    exact dispatch_tag_approx hb n tag' tw' cnt' (ifh + 8) happrox hrest' hrest

/-- The entries loop preserves the truncation simulation and reaches the same
final offset. -/
lemma entries_loop_approx (hb : List Nat) (n : Nat) :
    ∀ cnt ifh {s' s : ParseState} {r' r : Nat × ParseState}, StateApprox s' s →
      entries_loop (hb.take n) cnt ifh s' = some r' →
      entries_loop hb cnt ifh s = some r →
      r'.1 = r.1 ∧ StateApprox r'.2 r.2 := by
  intro cnt
  induction cnt with
  | zero =>
    intro ifh s' s r' r ha h1 h2
    simp only [entries_loop, Option.some.injEq] at h1 h2
    rw [← h1, ← h2]
    exact ⟨rfl, ha⟩
  | succ m ih =>
    intro ifh s' s r' r ha h1 h2
    simp only [entries_loop, Option.bind_eq_bind', Option.bind_eq_some] at h1 h2
    obtain ⟨u', hu', hrest'⟩ := h1
    obtain ⟨u, hu, hrest⟩ := h2
    exact ih (ifh + 12) (process_entry_approx hb n ifh ha hu' hu) hrest' hrest

/-- The chain loop preserves the truncation simulation. -/
lemma parse_ifd_approx (hb : List Nat) (n : Nat) :
    ∀ fuel o {s' s r' r : ParseState}, StateApprox s' s →
      parse_ifd (hb.take n) fuel o s' = some r' →
      parse_ifd hb fuel o s = some r → StateApprox r' r := by
  intro fuel
  induction fuel with
  | zero =>
    intro o s' s r' r _ h1 _
    exact absurd h1 (by simp [parse_ifd])
  | succ m ih =>
    intro o s' s r' r ha h1 h2
    rw [parse_ifd] at h1 h2
    by_cases ho : o = 0
    · rw [if_pos ho] at h1 h2
      injection h1 with h1'
      injection h2 with h2'
      rw [← h1', ← h2']
      exact ha
    · rw [if_neg ho] at h1 h2
      simp only [Option.bind_eq_bind', Option.bind_eq_some] at h1 h2
      obtain ⟨c', hc', rr', hrr', next', hnext', hcont'⟩ := h1
      obtain ⟨c, hc, rr, hrr, next, hnext, hcont⟩ := h2
      rw [get_int_ii_take hb n o 2 c' hc'] at hc
      injection hc with hcc
      subst hcc
      obtain ⟨hfst, happ2⟩ := entries_loop_approx hb n c' (o + 2) ha hrr' hrr
      rw [hfst] at hnext'
      rw [get_int_ii_take hb n rr.1 4 next' hnext'] at hnext
      injection hnext with hnn
      subst hnn
      exact ih next' happ2 hcont' hcont

/-- C4 counterexample: `buf_c4_full.take 28` is a strict prefix of the
well-formed chain `buf_c4_full` (it cuts off the pointed-to CRS string bytes),
yet index construction on the prefix does NOT fail: it succeeds and returns a
different (silently truncated) result. -/
theorem truncated_parse_succeeds_wrong :
    cog_header_bytes_parse buf_c4_full 2 = some
      { image_width := [], image_height := [], bit_per_sample := [], band_count := [],
        sample_format := [], tile_offsets := [], tile_byte_counts := [],
        cell_scale := [], geo_transform := [], crs := [65, 66, 67, 68],
        gdal_metadata := [], gdal_nodata := [], overview_level := -1 }
    ∧ (buf_c4_full.take 28).length < buf_c4_full.length
    ∧ cog_header_bytes_parse (buf_c4_full.take 28) 2 = some
      { image_width := [], image_height := [], bit_per_sample := [], band_count := [],
        sample_format := [], tile_offsets := [], tile_byte_counts := [],
        cell_scale := [], geo_transform := [], crs := [],
        gdal_metadata := [], gdal_nodata := [], overview_level := -1 }
    ∧ ({ image_width := [], image_height := [], bit_per_sample := [],
            band_count := [], sample_format := [], tile_offsets := [],
            tile_byte_counts := [], cell_scale := [], geo_transform := [], crs := [],
            gdal_metadata := [], gdal_nodata := [], overview_level := -1 } : ParseState)
      ≠ { image_width := [], image_height := [], bit_per_sample := [], band_count := [],
          sample_format := [], tile_offsets := [], tile_byte_counts := [],
          cell_scale := [], geo_transform := [], crs := [65, 66, 67, 68],
          gdal_metadata := [], gdal_nodata := [], overview_level := -1 } := by
  decide

/-- C4 amended: parsing any truncated header `hb.take n` either fails — no
partial index exists, the parse is all-or-nothing — or returns a result that
agrees with the full-header result on every numeric field (dimensions, sample
encoding, both tile grids, geo-referencing doubles, level counter) and whose
string fields are prefixes of the full ones; failure is not guaranteed,
because out-of-range string reads are silently truncated rather than
rejected. -/
theorem cog_parse_prefix_approx (hb : List Nat) (n fuel : Nat) (r r' : ParseState)
    (hfull : cog_header_bytes_parse hb fuel = some r)
    (hpre : cog_header_bytes_parse (hb.take n) fuel = some r') :
    StateApprox r' r := by
  simp only [cog_header_bytes_parse, Option.bind_eq_bind', Option.bind_eq_some]
    at hfull hpre
  obtain ⟨o, ho, hrun⟩ := hfull
  obtain ⟨o', ho', hrun'⟩ := hpre
  rw [get_int_ii_take hb n 4 4 o' ho'] at ho
  injection ho with hoo
  subst hoo
  exact parse_ifd_approx hb n fuel o' (state_approx_refl init_state) hrun' hrun

/-- C4 witness: the truncation-simulation theorem applied to `buf_c4_full`
truncated at byte 28. -/
theorem cog_parse_prefix_approx_witness :
    cog_header_bytes_parse buf_c4_full 2 = some
      { image_width := [], image_height := [], bit_per_sample := [], band_count := [],
        sample_format := [], tile_offsets := [], tile_byte_counts := [],
        cell_scale := [], geo_transform := [], crs := [65, 66, 67, 68],
        gdal_metadata := [], gdal_nodata := [], overview_level := -1 }
    ∧ cog_header_bytes_parse (buf_c4_full.take 28) 2 = some
      { image_width := [], image_height := [], bit_per_sample := [], band_count := [],
        sample_format := [], tile_offsets := [], tile_byte_counts := [],
        cell_scale := [], geo_transform := [], crs := [],
        gdal_metadata := [], gdal_nodata := [], overview_level := -1 }
    ∧ StateApprox
      { image_width := [], image_height := [], bit_per_sample := [], band_count := [],
        sample_format := [], tile_offsets := [], tile_byte_counts := [],
        cell_scale := [], geo_transform := [], crs := [],
        gdal_metadata := [], gdal_nodata := [], overview_level := -1 }
      { image_width := [], image_height := [], bit_per_sample := [], band_count := [],
        sample_format := [], tile_offsets := [], tile_byte_counts := [],
        cell_scale := [], geo_transform := [], crs := [65, 66, 67, 68],
        gdal_metadata := [], gdal_nodata := [], overview_level := -1 } :=
  ⟨by decide, by decide,
   cog_parse_prefix_approx buf_c4_full 28 2 _ _ (by decide) (by decide)⟩

end COG
